import Mathlib

/-!
Verification of the h1-watcher pipeline: a shallow embedding of the
JSON-file state database (src/db.js), the retrying HTTP client
(src/h1-client.js), the chunking alerter (src/alerter.js) and the
orchestrator (src/watcher.js), together with theorems checking the
natural-language specification against this embedding.
-/

namespace H1

/-- A JavaScript id value as it appears on a program object: either a
number or a string.  `String(id)` in the source normalizes both. -/
inductive JsId where
  | num (n : Nat)
  | str (s : String)
deriving DecidableEq, Repr

/-- Embedding of the JavaScript `String(id)` coercion used by
`getKnownIds`, `addPrograms` and `diffPrograms` in src/db.js. -/
def idToString : JsId → String
  | .num n => Nat.repr n
  | .str s => s

/-- A normalized program object, as produced by `normalizeProgram` in
src/h1-client.js and consumed by src/db.js. -/
structure Program where
  id : JsId
  handle : String
  name : String
  state : String
  submission_state : String
  offers_bounties : Bool
  started_accepting_at : Option String
deriving DecidableEq, Repr

/-- A persisted program record, the value stored under a program id key
by `addPrograms` in src/db.js. -/
structure ProgramRec where
  handle : String
  name : String
  state : String
  submission_state : String
  offers_bounties : Bool
  started_accepting_at : Option String
  first_seen : String
deriving DecidableEq, Repr

/-- The database object of src/db.js: `programs` is a JavaScript object
mapping ids to records, embedded as an insertion-ordered association
list, and `last_run` is an ISO timestamp or null. -/
structure Db where
  programs : List (String × ProgramRec)
  last_run : Option String
deriving DecidableEq, Repr

/-- Embedding of `createEmptyDb` in src/db.js. -/
def createEmptyDb : Db :=
  { programs := [], last_run := none }

/-- Embedding of `getKnownIds` in src/db.js: the set of keys of the
`programs` object, as a list (membership plays the role of `Set.has`). -/
def getKnownIds (db : Db) : List String :=
  db.programs.map Prod.fst

/-- JavaScript property assignment `obj[k] = v` on an object embedded
as an insertion-ordered association list: an existing key keeps its
position and gets the new value, a new key is appended. -/
def setKey : List (String × ProgramRec) → String → ProgramRec → List (String × ProgramRec)
  | [], k, v => [(k, v)]
  | (k₀, v₀) :: rest, k, v =>
    if k₀ = k then (k, v) :: rest else (k₀, v₀) :: setKey rest k v

/-- The record literal built inside the `addPrograms` loop in src/db.js,
with `now` the value of `new Date().toISOString()` at that insertion. -/
def mkRec (p : Program) (now : String) : ProgramRec :=
  { handle := p.handle
    name := p.name
    state := p.state
    submission_state := p.submission_state
    offers_bounties := p.offers_bounties
    started_accepting_at := p.started_accepting_at
    first_seen := now }

/-- The loop of `addPrograms` in src/db.js.  `known` is the id set
computed once on entry; `now i` is the timestamp observed at the i-th
insertion of this call (the source evaluates `new Date()` per insert). -/
def addProgramsGo (known : List String) (now : Nat → String) :
    List Program → List (String × ProgramRec) → List Program → Nat →
    List (String × ProgramRec) × List Program
  | [], m, added, _ => (m, added)
  | p :: ps, m, added, cnt =>
    if idToString p.id ∈ known then
      addProgramsGo known now ps m added cnt
    else
      addProgramsGo known now ps (setKey m (idToString p.id) (mkRec p (now cnt)))
        (added ++ [p]) (cnt + 1)

/-- Embedding of `addPrograms` in src/db.js: mutation of `db` in place
becomes returning the updated database next to the `added` list. -/
def addPrograms (db : Db) (programs : List Program) (now : Nat → String) :
    Db × List Program :=
  let known := getKnownIds db
  let r := addProgramsGo known now programs db.programs [] 0
  ({ db with programs := r.1 }, r.2)

/-- Embedding of `diffPrograms` in src/db.js. -/
def diffPrograms (db : Db) (currentPrograms : List Program) : List Program :=
  let known := getKnownIds db
  currentPrograms.filter (fun p => decide (idToString p.id ∉ known))

/-- Embedding of `save` in src/db.js restricted to its effect on the
database value: it stamps `last_run` with the current time (the file
write itself carries no further information for the claims). -/
def save (db : Db) (now : String) : Db :=
  { db with last_run := some now }

/-! ## HTTP client with retry (src/h1-client.js) -/

/-- Constant `MAX_RETRIES` of src/h1-client.js. -/
def MAX_RETRIES : Nat := 3

/-- Constant `BASE_DELAY_MS` of src/h1-client.js. -/
def BASE_DELAY_MS : Nat := 1000

/-- What one invocation of the underlying `fetch` does: either it
resolves to a response (with a status code and status text) or it
rejects with an error carrying a `name` and a `message`. -/
inductive FetchOutcome where
  | resp (status : Nat) (statusText : String)
  | threw (name : String) (msg : String)
deriving DecidableEq, Repr

/-- An error escaping `fetchWithRetry`: either the `Error` built for a
non-ok response (`HackerOne API error: HTTP ...`, whose `name` is the
generic `"Error"`), or a rethrown error from the underlying fetch. -/
inductive JsError where
  | apiError (status : Nat) (statusText : String)
  | raised (name : String) (msg : String)
deriving DecidableEq, Repr

/-- Result of a `fetchWithRetry` call together with its observable
trace: how many times the underlying fetch ran and which backoff
delays were slept, in order. -/
structure FwrOut where
  result : Except JsError (Nat × String)
  calls : Nat
  sleeps : List Nat
deriving Repr

/-- The retry condition of line 64 of the client: HTTP 429 or any 5xx. -/
def retryableStatus (s : Nat) : Prop := s = 429 ∨ 500 ≤ s

instance (s : Nat) : Decidable (retryableStatus s) := by
  unfold retryableStatus; infer_instance

/-- The `Response.ok` predicate of the fetch API: status in the 2xx range. -/
def statusOk (s : Nat) : Prop := 200 ≤ s ∧ s < 300

instance (s : Nat) : Decidable (statusOk s) := by
  unfold statusOk; infer_instance

/-- The backoff delay `BASE_DELAY_MS * Math.pow(2, attempt - 1)`. -/
def backoffDelay (attempt : Nat) : Nat := BASE_DELAY_MS * 2 ^ (attempt - 1)

/-- Embedding of `fetchWithRetry` in src/h1-client.js.  `outcomes i` is
what the underlying fetch does on the call made at attempt counter `i`.
A retryable status with `attempt <= MAX_RETRIES` sleeps and recurses;
otherwise a non-ok status throws the API `Error`, which the catch in the
same frame rethrows because its `name` is exactly `"Error"`.  A rejected
fetch is retried only when `attempt <= MAX_RETRIES` and the error name
differs from `"Error"`; recursive results reach the caller directly
because the source returns the recursive promise without awaiting it
inside the `try`. -/
def fetchWithRetry (outcomes : Nat → FetchOutcome) (attempt : Nat) : FwrOut :=
  match outcomes attempt with
  | .resp status text =>
    if retryableStatus status ∧ attempt ≤ MAX_RETRIES then
      let rest := fetchWithRetry outcomes (attempt + 1)
      ⟨rest.result, rest.calls + 1, backoffDelay attempt :: rest.sleeps⟩
    else if ¬ statusOk status then
      ⟨.error (.apiError status text), 1, []⟩
    else
      ⟨.ok (status, text), 1, []⟩
  | .threw name msg =>
    if attempt ≤ MAX_RETRIES ∧ name ≠ "Error" then
      let rest := fetchWithRetry outcomes (attempt + 1)
      ⟨rest.result, rest.calls + 1, backoffDelay attempt :: rest.sleeps⟩
    else
      ⟨.error (.raised name msg), 1, []⟩
  termination_by MAX_RETRIES + 1 - attempt
  decreasing_by
  · simp only [MAX_RETRIES] at *; omega
  · simp only [MAX_RETRIES] at *; omega

/-! ## Alerter (src/alerter.js) -/

/-- Constant `TELEGRAM_MAX_LENGTH` of src/alerter.js. -/
def TELEGRAM_MAX_LENGTH : Nat := 4096

/-- Constant `DISCORD_MAX_LENGTH` of src/alerter.js. -/
def DISCORD_MAX_LENGTH : Nat := 2000

/-- Embedding of `escapeHtml` in src/alerter.js.  The source performs
three sequential global replaces; since the replacement texts never
contain a character that a later pass rewrites into a fresh match, the
composite equals this single character-wise map. -/
def escapeHtml (s : String) : String :=
  String.join (s.toList.map fun c =>
    if c = '&' then "&amp;"
    else if c = '<' then "&lt;"
    else if c = '>' then "&gt;"
    else String.mk [c])

/-- Embedding of `formatTelegramEntry` in src/alerter.js. -/
def formatTelegramEntry (p : Program) : String :=
  let bounty := if p.offers_bounties then "💰 Bounty" else "🏅 VDP"
  "• <b>" ++ escapeHtml p.name ++ "</b> (<code>" ++ escapeHtml p.handle ++
    "</code>) — " ++ bounty ++ "\n  → https://hackerone.com/" ++ p.handle

/-- Embedding of `formatDiscordEntry` in src/alerter.js. -/
def formatDiscordEntry (p : Program) : String :=
  let bounty := if p.offers_bounties then "💰 Bounty" else "🏅 VDP"
  "• **" ++ p.name ++ "** (`" ++ p.handle ++ "`) — " ++ bounty ++
    "\n  → <https://hackerone.com/" ++ p.handle ++ ">"

/-- The JavaScript `array.join('\n\n')` used by `chunkMessages`. -/
def joinNN : List String → String
  | [] => ""
  | [x] => x
  | x :: xs => x ++ "\n\n" ++ joinNN xs

/-- The chunk header string built inside the split loop of
`chunkMessages` (without its trailing blank line). -/
def chunkHeader (hp : String) (total part : Nat) : String :=
  "🔔 " ++ hp ++ " — " ++ Nat.repr total ++ " new programs (part " ++
    Nat.repr part ++ "):"

/-- The header of the single-message fast path of `chunkMessages`. -/
def singleHeader (hp : String) (total : Nat) : String :=
  "🔔 " ++ hp ++ " — " ++ Nat.repr total ++ " new HackerOne program" ++
    (if 1 < total then "s" else "") ++ " detected!"

/-- Accumulator of the split loop of `chunkMessages`: finished chunks,
the entries of the chunk being built, and the tracked joined length of
those entries. -/
structure ChunkAcc where
  chunks : List String
  current : List String
  currentLength : Nat
deriving Repr

/-- One iteration of the split loop of `chunkMessages` in
src/alerter.js, for a single rendered entry. -/
def chunkStep (hp : String) (total maxLength : Nat) (st : ChunkAcc) (entry : String) :
    ChunkAcc :=
  let hdr := chunkHeader hp total (st.chunks.length + 1)
  let sep := if st.current.isEmpty then 0 else 2
  let projected := (hdr.length + 2) + st.currentLength + sep + entry.length
  if maxLength < projected ∧ st.current ≠ [] then
    { chunks := st.chunks ++ [hdr ++ "\n\n" ++ joinNN st.current]
      current := [entry]
      currentLength := entry.length }
  else
    { chunks := st.chunks
      current := st.current ++ [entry]
      currentLength := st.currentLength + (if st.current.isEmpty then 0 else 2) + entry.length }

/-- The finalization after the split loop of `chunkMessages`: a pending
non-empty chunk is flushed with its header. -/
def chunkFinish (hp : String) (total : Nat) (st : ChunkAcc) : List String :=
  if st.current = [] then st.chunks
  else st.chunks ++ [chunkHeader hp total (st.chunks.length + 1) ++ "\n\n" ++ joinNN st.current]

/-- Embedding of `chunkMessages` in src/alerter.js. -/
def chunkMessages (programs : List Program) (entryFmt : Program → String)
    (hp : String) (maxLength : Nat) : List String :=
  if programs.length = 0 then []
  else
    let allEntries := programs.map entryFmt
    let single := singleHeader hp programs.length ++ "\n\n" ++ joinNN allEntries
    if single.length ≤ maxLength then [single]
    else chunkFinish hp programs.length
      (allEntries.foldl (chunkStep hp programs.length maxLength) ⟨[], [], 0⟩)

/-- Embedding of `sendTelegram` in src/alerter.js, as a function of the
configuration flag and of what the wrapped fetch did: a missing
configuration, a thrown transport error (the catch) and a non-2xx
response all become `false`; only an ok response yields `true`. -/
def sendTelegram (configured : Bool) (outcome : FetchOutcome) : Bool :=
  if !configured then false
  else
    match outcome with
    | .threw _ _ => false
    | .resp status _ => if ¬ statusOk status then false else true

/-- Embedding of `sendDiscord` in src/alerter.js: as `sendTelegram`,
except that a 204 status is additionally accepted. -/
def sendDiscord (configured : Bool) (outcome : FetchOutcome) : Bool :=
  if !configured then false
  else
    match outcome with
    | .threw _ _ => false
    | .resp status _ => if ¬ statusOk status ∧ status ≠ 204 then false else true

/-- The per-channel send loop of `notify` in src/alerter.js: every chunk
is sent in order (the returned index list records each attempted send),
and the accumulated flag is the conjunction of the send results, seeded
by the caller. -/
def sendLoop (send : FetchOutcome → Bool) (outcomes : Nat → FetchOutcome) :
    List String → Nat → Bool → Bool × List Nat
  | [], _, ok => (ok, [])
  | _ :: cs, i, ok =>
    let r := send (outcomes i)
    let rest := sendLoop send outcomes cs (i + 1) (ok && r)
    (rest.1, i :: rest.2)

/-- The channel result record returned by `notify`. -/
structure NotifyResult where
  telegram : Bool
  discord : Bool
deriving DecidableEq, Repr

/-- The Telegram chunking call of `notify` in src/alerter.js. -/
def telegramChunks (ps : List Program) : List String :=
  chunkMessages ps formatTelegramEntry "<b>h1-watcher</b>" TELEGRAM_MAX_LENGTH

/-- The Discord chunking call of `notify` in src/alerter.js. -/
def discordChunks (ps : List Program) : List String :=
  chunkMessages ps formatDiscordEntry "**h1-watcher**" DISCORD_MAX_LENGTH

/-- Embedding of `notify` in src/alerter.js.  `tgOutcomes i` and
`dcOutcomes i` describe what the transport did for the i-th chunk of the
respective channel.  Besides the channel result record it returns, for
each channel, the indices of the chunks for which a send was attempted. -/
def notify (ps : List Program) (tgConfigured : Bool) (tgOutcomes : Nat → FetchOutcome)
    (dcConfigured : Bool) (dcOutcomes : Nat → FetchOutcome) :
    NotifyResult × List Nat × List Nat :=
  if ps.isEmpty then (⟨false, false⟩, [], [])
  else
    let tchunks := telegramChunks ps
    let dchunks := discordChunks ps
    let t := if tchunks.isEmpty then (false, [])
             else sendLoop (sendTelegram tgConfigured) tgOutcomes tchunks 0 true
    let d := if dchunks.isEmpty then (false, [])
             else sendLoop (sendDiscord dcConfigured) dcOutcomes dchunks 0 true
    (⟨t.1, d.1⟩, t.2, d.2)

/-! ## Orchestrator (src/watcher.js) -/

/-- Observable outcome of one `run` of src/watcher.js: the database
value that was saved, the returned list of new programs, and whether the
notify and recon-dispatch steps were invoked. -/
structure RunOut where
  finalDb : Db
  newPrograms : List Program
  notifyCalled : Bool
  dispatchCalled : Bool
deriving Repr

/-- Embedding of `run` in src/watcher.js over its injected dependencies:
`state` is the loaded database, `currentPrograms` the fetched batch,
`addNow` the timestamps observed by `addPrograms`, and `saveNow` the
timestamp stamped by `save`. -/
def run (state : Db) (currentPrograms : List Program) (addNow : Nat → String)
    (saveNow : String) : RunOut :=
  let newPrograms := diffPrograms state currentPrograms
  if newPrograms.isEmpty then
    ⟨save state saveNow, [], false, false⟩
  else
    let state1 := (addPrograms state newPrograms addNow).1
    ⟨save state1 saveNow, newPrograms, true, true⟩

/-! ## Database file loading (src/db.js, `load`) -/

/-- A JSON value, the possible results of `JSON.parse`. -/
inductive Json where
  | jnull
  | jbool (b : Bool)
  | jnum (n : Int)
  | jstr (s : String)
  | jarr (elems : List Json)
  | jobj (fields : List (String × Json))
deriving Repr

/-- JavaScript truthiness of a parsed JSON value (the `!data` test). -/
def jsTruthy : Json → Bool
  | .jnull => false
  | .jbool b => b
  | .jnum n => n != 0
  | .jstr s => s != ""
  | .jarr _ => true
  | .jobj _ => true

/-- JavaScript property access `data[k]`: defined only on objects (on
every other parsed value the property is `undefined`, encoded `none`). -/
def getField : Json → String → Option Json
  | .jobj fields, k => fields.lookup k
  | _, _ => none

/-- The JavaScript test `typeof v === 'object'`: true for objects and
arrays, and — a JavaScript peculiarity — also for `null`. -/
def typeofIsObject : Json → Bool
  | .jnull => true
  | .jarr _ => true
  | .jobj _ => true
  | _ => false

/-- The JSON value of `createEmptyDb`. -/
def emptyDbJson : Json := .jobj [("programs", .jobj []), ("last_run", .jnull)]

/-- The JavaScript `Object.keys(v)` call: it throws a `TypeError` on
`null` (and `undefined`), encoded `none`; on an object it lists the own
keys, on an array the index strings, and on a primitive it coerces and
returns an empty key list (strings expose their character indices). -/
def jsObjectKeys : Json → Option (List String)
  | .jnull => none
  | .jobj fields => some (fields.map Prod.fst)
  | .jarr elems => some ((List.range elems.length).map Nat.repr)
  | .jbool _ => some []
  | .jnum _ => some []
  | .jstr s => some ((List.range s.length).map Nat.repr)

/-- What the database file held when `load` ran: missing, unreadable,
not valid JSON, or a parsed JSON value. -/
inductive Disk where
  | absent
  | readError
  | unparsable
  | ok (j : Json)

/-- Embedding of `load` in src/db.js.  Every failure path — missing
file, read error, parse error — is caught and yields the empty database.
A parsed value passes validation when it is truthy and its `programs`
field exists and passes `typeof === 'object'`; the source then computes
`Object.keys(data.programs).length` for its log line while still inside
the `try`, so a `programs` field of `null` (which passes the `typeof`
test) makes `Object.keys` throw a `TypeError` that the `catch` turns
into the empty database.  Only when `Object.keys` succeeds — on objects
and arrays — is the parsed value returned unchanged. -/
def load : Disk → Json
  | .absent => emptyDbJson
  | .readError => emptyDbJson
  | .unparsable => emptyDbJson
  | .ok data =>
    if !jsTruthy data then emptyDbJson
    else
      match getField data "programs" with
      | some v =>
        if typeofIsObject v then
          match jsObjectKeys v with
          | some _ => data
          | none => emptyDbJson
        else emptyDbJson
      | none => emptyDbJson

/-! ## Derived definitions used by the statements -/

/-- A sequence of `addPrograms` calls applied to a database, each with
its own batch and its own clock (the `diffPrograms` calls of a run read
the database without changing it, so a call sequence is summarized by
its `addPrograms` applications). -/
def applyBatches (db : Db) : List (List Program × (Nat → String)) → Db
  | [] => db
  | (B, now) :: rest => applyBatches (addPrograms db B now).1 rest

/-- The length of `joinNN l`, computed structurally: entries plus a
two-character separator between consecutive entries. -/
def joinLen : List String → Nat
  | [] => 0
  | [x] => x.length
  | x :: xs => x.length + 2 + joinLen xs

/-! ## Lemmas about the database -/

theorem mem_keys_setKey (m : List (String × ProgramRec)) (k : String) (v : ProgramRec)
    (s : String) (hs : s ∈ m.map Prod.fst) : s ∈ (setKey m k v).map Prod.fst := by
  induction m with
  | nil => simp at hs
  | cons hd tl ih =>
    obtain ⟨k₀, v₀⟩ := hd
    simp only [setKey]
    by_cases hk : k₀ = k
    · subst hk
      simp only [if_pos rfl]
      simpa using hs
    · simp only [if_neg hk, List.map_cons, List.mem_cons] at hs ⊢
      rcases hs with hs | hs
      · exact Or.inl hs
      · exact Or.inr (ih hs)

theorem mem_keys_setKey_self (m : List (String × ProgramRec)) (k : String) (v : ProgramRec) :
    k ∈ (setKey m k v).map Prod.fst := by
  induction m with
  | nil => simp [setKey]
  | cons hd tl ih =>
    obtain ⟨k₀, v₀⟩ := hd
    simp only [setKey]
    by_cases hk : k₀ = k
    · simp [hk]
    · simp only [if_neg hk, List.map_cons, List.mem_cons]
      exact Or.inr ih

theorem lookup_setKey_ne (m : List (String × ProgramRec)) (k k₀ : String) (v : ProgramRec)
    (hne : k ≠ k₀) : (setKey m k₀ v).lookup k = m.lookup k := by
  induction m with
  | nil => simp [setKey, List.lookup, beq_eq_false_iff_ne.mpr hne]
  | cons hd tl ih =>
    obtain ⟨k₁, v₁⟩ := hd
    simp only [setKey]
    by_cases hk : k₁ = k₀
    · subst hk
      simp [List.lookup, beq_eq_false_iff_ne.mpr hne]
    · simp only [if_neg hk, List.lookup]
      by_cases hkk : k == k₁
      · simp [hkk]
      · simp only [Bool.not_eq_true] at hkk
        simp [hkk, ih]

theorem lookup_mem_keys (m : List (String × ProgramRec)) (k : String) (r : ProgramRec)
    (h : m.lookup k = some r) : k ∈ m.map Prod.fst := by
  induction m with
  | nil => simp [List.lookup] at h
  | cons hd tl ih =>
    obtain ⟨k₀, v₀⟩ := hd
    simp only [List.lookup] at h
    by_cases hk : k == k₀
    · simp only [List.map_cons, List.mem_cons]
      exact Or.inl (eq_of_beq hk)
    · simp only [Bool.not_eq_true] at hk
      rw [hk] at h
      simp only [List.map_cons, List.mem_cons]
      exact Or.inr (ih h)

theorem addProgramsGo_keys_mono (known : List String) (now : Nat → String)
    (ps : List Program) :
    ∀ (m : List (String × ProgramRec)) (added : List Program) (cnt : Nat) (s : String),
      s ∈ m.map Prod.fst →
      s ∈ (addProgramsGo known now ps m added cnt).1.map Prod.fst := by
  induction ps with
  | nil => intro m added cnt s hs; simpa [addProgramsGo] using hs
  | cons p ps ih =>
    intro m added cnt s hs
    simp only [addProgramsGo]
    by_cases hk : idToString p.id ∈ known
    · simp only [if_pos hk]
      exact ih m added cnt s hs
    · simp only [if_neg hk]
      exact ih _ _ _ s (mem_keys_setKey m _ _ s hs)

theorem addProgramsGo_mem_keys (known : List String) (now : Nat → String)
    (ps : List Program) :
    ∀ (m : List (String × ProgramRec)) (added : List Program) (cnt : Nat),
      (∀ s ∈ known, s ∈ m.map Prod.fst) →
      ∀ p ∈ ps, idToString p.id ∈ (addProgramsGo known now ps m added cnt).1.map Prod.fst := by
  induction ps with
  | nil => intro m added cnt _ p hp; simp at hp
  | cons q ps ih =>
    intro m added cnt hsub p hp
    simp only [addProgramsGo]
    rcases List.mem_cons.mp hp with rfl | hp
    · by_cases hk : idToString p.id ∈ known
      · simp only [if_pos hk]
        exact addProgramsGo_keys_mono known now ps m added cnt _ (hsub _ hk)
      · simp only [if_neg hk]
        exact addProgramsGo_keys_mono known now ps _ _ _ _
          (mem_keys_setKey_self m (idToString p.id) _)
    · by_cases hk : idToString q.id ∈ known
      · simp only [if_pos hk]
        exact ih m added cnt hsub p hp
      · simp only [if_neg hk]
        refine ih _ _ _ (fun s hs => mem_keys_setKey m _ _ s (hsub s hs)) p hp

theorem addProgramsGo_all_known (known : List String) (now : Nat → String)
    (ps : List Program) :
    ∀ (m : List (String × ProgramRec)) (added : List Program) (cnt : Nat),
      (∀ p ∈ ps, idToString p.id ∈ known) →
      addProgramsGo known now ps m added cnt = (m, added) := by
  induction ps with
  | nil => intro m added cnt _; simp [addProgramsGo]
  | cons q ps ih =>
    intro m added cnt hall
    have hq : idToString q.id ∈ known := hall q (List.mem_cons_self q ps)
    simp only [addProgramsGo, if_pos hq]
    exact ih m added cnt (fun p hp => hall p (List.mem_cons_of_mem q hp))

theorem addProgramsGo_lookup_preserved (known : List String) (now : Nat → String)
    (ps : List Program) :
    ∀ (m : List (String × ProgramRec)) (added : List Program) (cnt : Nat) (k : String),
      k ∈ known →
      (addProgramsGo known now ps m added cnt).1.lookup k = m.lookup k := by
  induction ps with
  | nil => intro m added cnt k _; simp [addProgramsGo]
  | cons q ps ih =>
    intro m added cnt k hk
    simp only [addProgramsGo]
    by_cases hq : idToString q.id ∈ known
    · simp only [if_pos hq]
      exact ih m added cnt k hk
    · simp only [if_neg hq]
      have hne : k ≠ idToString q.id := fun h => hq (h ▸ hk)
      rw [ih _ _ _ k hk, lookup_setKey_ne m k _ _ hne]

theorem addPrograms_mem_keys (db : Db) (B : List Program) (now : Nat → String) :
    ∀ p ∈ B, idToString p.id ∈ getKnownIds (addPrograms db B now).1 := by
  intro p hp
  have := addProgramsGo_mem_keys (getKnownIds db) now B db.programs [] 0
    (fun s hs => hs) p hp
  simpa [addPrograms, getKnownIds] using this

theorem addPrograms_lookup_preserved (db : Db) (B : List Program) (now : Nat → String)
    (k : String) (r : ProgramRec) (h : db.programs.lookup k = some r) :
    ((addPrograms db B now).1).programs.lookup k = some r := by
  have hk : k ∈ getKnownIds db := by
    simpa [getKnownIds] using lookup_mem_keys db.programs k r h
  have := addProgramsGo_lookup_preserved (getKnownIds db) now B db.programs [] 0 k hk
  simpa [addPrograms, this] using h

theorem applyBatches_lookup_preserved (seq : List (List Program × (Nat → String))) :
    ∀ (db : Db) (k : String) (r : ProgramRec), db.programs.lookup k = some r →
      (applyBatches db seq).programs.lookup k = some r := by
  induction seq with
  | nil => intro db k r h; simpa [applyBatches] using h
  | cons hd tl ih =>
    intro db k r h
    obtain ⟨B, now⟩ := hd
    simp only [applyBatches]
    exact ih _ k r (addPrograms_lookup_preserved db B now k r h)

theorem mem_diffPrograms (db : Db) (B : List Program) (p : Program) :
    p ∈ diffPrograms db B ↔ p ∈ B ∧ idToString p.id ∉ getKnownIds db := by
  simp [diffPrograms, List.mem_filter]

/-! ## Claim theorems for the database -/

/-- C5: `diffPrograms` returns exactly the elements of the batch whose
string-normalized id is not a key of the state, in the original order
(it is the corresponding filter); on the empty state it returns the
whole batch; it returns nothing when every id is known; and a numeric id
100 is interchangeable with the string id "100". -/
theorem diffPrograms_spec (db : Db) (B : List Program) :
    diffPrograms db B = B.filter (fun p => decide (idToString p.id ∉ getKnownIds db)) ∧
    diffPrograms createEmptyDb B = B ∧
    ((∀ p ∈ B, idToString p.id ∈ getKnownIds db) → diffPrograms db B = []) ∧
    (∀ p q : Program, p.id = .num 100 → q.id = .str "100" →
      (diffPrograms db [p] = [] ↔ diffPrograms db [q] = [])) := by
  refine ⟨rfl, ?_, ?_, ?_⟩
  · simp [diffPrograms, createEmptyDb, getKnownIds]
  · intro h
    simp only [diffPrograms, List.filter_eq_nil_iff, decide_eq_true_eq]
    intro p hp
    simp [h p hp]
  · intro p q hp hq
    have hid : idToString p.id = idToString q.id := by
      rw [hp, hq]; rfl
    simp [diffPrograms, hid]

/-- C5 witness: the empty-state case on a concrete batch. -/
theorem diffPrograms_spec_witness :
    diffPrograms createEmptyDb [⟨.str "1", "a", "A", "s", "o", true, none⟩] =
      [⟨.str "1", "a", "A", "s", "o", true, none⟩] :=
  (diffPrograms_spec createEmptyDb [⟨.str "1", "a", "A", "s", "o", true, none⟩]).2.1

/-- C6: the persisted mapping is append-only.  Once an id is a key with
its record, any sequence of `addPrograms` calls leaves that key bound to
the same record (in particular `first_seen` is unchanged), and
`diffPrograms` on the resulting state never reports that id as new, even
when intermediate batches omitted it. -/
theorem db_append_only (db : Db) (seq : List (List Program × (Nat → String)))
    (k : String) (r : ProgramRec) (h : db.programs.lookup k = some r) :
    (applyBatches db seq).programs.lookup k = some r ∧
    ∀ (B : List Program) (p : Program),
      p ∈ diffPrograms (applyBatches db seq) B → idToString p.id ≠ k := by
  have hpres := applyBatches_lookup_preserved seq db k r h
  refine ⟨hpres, ?_⟩
  intro B p hp hid
  have hmem := (mem_diffPrograms _ B p).mp hp
  exact hmem.2 (by
    rw [hid]
    simpa [getKnownIds] using lookup_mem_keys _ k r hpres)

/-- C6 witness: a concrete persisted record survives a later batch that
omits it and is not reported as new. -/
theorem db_append_only_witness :
    (applyBatches
        { programs := [("1", ⟨"h", "N", "s", "o", true, none, "t0"⟩)], last_run := none }
        [([⟨.str "2", "x", "X", "s", "o", false, none⟩], fun _ => "t1")]).programs.lookup "1" =
      some ⟨"h", "N", "s", "o", true, none, "t0"⟩ :=
  (db_append_only
    { programs := [("1", ⟨"h", "N", "s", "o", true, none, "t0"⟩)], last_run := none }
    [([⟨.str "2", "x", "X", "s", "o", false, none⟩], fun _ => "t1")]
    "1" ⟨"h", "N", "s", "o", true, none, "t0"⟩ rfl).1

/-- C7: `addPrograms` is idempotent — re-adding the same batch changes
nothing and the second call reports an empty added list. -/
theorem addPrograms_idempotent (db : Db) (B : List Program) (now₁ now₂ : Nat → String) :
    addPrograms (addPrograms db B now₁).1 B now₂ = ((addPrograms db B now₁).1, []) := by
  have hall : ∀ p ∈ B, idToString p.id ∈ getKnownIds (addPrograms db B now₁).1 :=
    addPrograms_mem_keys db B now₁
  conv_lhs => rw [addPrograms]
  rw [addProgramsGo_all_known _ now₂ B _ [] 0 hall]

/-- C10: the known-id set of `addPrograms` is computed once on entry, so
a batch holding two entities with the same fresh id inserts both — the
later record (with its own `first_seen`) overwrites the earlier one —
and both occurrences appear in the returned added list. -/
theorem addPrograms_intra_batch_duplicate :
    addPrograms createEmptyDb
        [⟨.str "7", "a", "A", "s", "o", true, none⟩,
         ⟨.str "7", "b", "B", "s", "o", true, none⟩]
        (fun i => Nat.repr i) =
      ({ programs := [("7", ⟨"b", "B", "s", "o", true, none, "1"⟩)], last_run := none },
       [⟨.str "7", "a", "A", "s", "o", true, none⟩,
        ⟨.str "7", "b", "B", "s", "o", true, none⟩]) := by
  rfl

/-! ## Claim theorems for the retrying client -/

theorem fetchWithRetry_resp_step (st : Nat → Nat) (tx : Nat → String) (a : Nat)
    (ha : a ≤ 3) (hr : retryableStatus (st a)) :
    fetchWithRetry (fun i => .resp (st i) (tx i)) a =
      ⟨(fetchWithRetry (fun i => .resp (st i) (tx i)) (a + 1)).result,
       (fetchWithRetry (fun i => .resp (st i) (tx i)) (a + 1)).calls + 1,
       backoffDelay a :: (fetchWithRetry (fun i => .resp (st i) (tx i)) (a + 1)).sleeps⟩ := by
  rw [fetchWithRetry]
  simp [MAX_RETRIES, ha, hr]

theorem fetchWithRetry_threw_step (nm ms : Nat → String) (a : Nat)
    (ha : a ≤ 3) (hn : nm a ≠ "Error") :
    fetchWithRetry (fun i => .threw (nm i) (ms i)) a =
      ⟨(fetchWithRetry (fun i => .threw (nm i) (ms i)) (a + 1)).result,
       (fetchWithRetry (fun i => .threw (nm i) (ms i)) (a + 1)).calls + 1,
       backoffDelay a :: (fetchWithRetry (fun i => .threw (nm i) (ms i)) (a + 1)).sleeps⟩ := by
  rw [fetchWithRetry]
  simp [MAX_RETRIES, ha, hn]

/-- C1 counterexample: with the endpoint answering 503 on every attempt,
`fetchWithRetry` runs the underlying fetch 4 times (the initial attempt
plus `MAX_RETRIES` retries), not 3 times as the claim states. -/
theorem retry_exhaustion_three_attempts_cex :
    (fetchWithRetry (fun _ => .resp 503 "Service Unavailable") 1).calls = 4 ∧
    (fetchWithRetry (fun _ => .resp 503 "Service Unavailable") 1).calls ≠ 3 := by
  have h : (fetchWithRetry (fun _ => .resp 503 "Service Unavailable") 1).calls = 4 := by
    simp [fetchWithRetry, retryableStatus, statusOk, MAX_RETRIES]
  exact ⟨h, by rw [h]; norm_num⟩

/-- C1 (amended): when every attempt draws a retryable status (429 or
5xx), `fetchWithRetry` makes exactly 4 fetch calls — the initial attempt
plus 3 retries — sleeping `BASE_DELAY_MS * 2 ^ (attempt - 1)`
milliseconds between consecutive attempts (1000, 2000, 4000), and then
surfaces the error built from the last response as a fatal
`HackerOne API error` whose name is the generic `Error`. -/
theorem fetchWithRetry_retryable_exhaustion (st : Nat → Nat) (tx : Nat → String)
    (h : ∀ i, 1 ≤ i → i ≤ 4 → retryableStatus (st i)) :
    fetchWithRetry (fun i => .resp (st i) (tx i)) 1 =
      ⟨.error (.apiError (st 4) (tx 4)), 4, [1000, 2000, 4000]⟩ := by
  have final : fetchWithRetry (fun i => .resp (st i) (tx i)) 4 =
      ⟨.error (.apiError (st 4) (tx 4)), 1, []⟩ := by
    have h4 := h 4 (by norm_num) (by norm_num)
    have hnr : ¬ (retryableStatus (st 4) ∧ 4 ≤ MAX_RETRIES) := by
      simp [MAX_RETRIES]
    have hnok : ¬ statusOk (st 4) := by
      rcases h4 with h4 | h4 <;> (unfold statusOk; omega)
    rw [fetchWithRetry]
    simp [hnr, hnok]
  rw [fetchWithRetry_resp_step st tx 1 (by norm_num) (h 1 (by norm_num) (by norm_num)),
      fetchWithRetry_resp_step st tx 2 (by norm_num) (h 2 (by norm_num) (by norm_num)),
      fetchWithRetry_resp_step st tx 3 (by norm_num) (h 3 (by norm_num) (by norm_num)),
      final]
  simp [backoffDelay, BASE_DELAY_MS]

/-- C1 witness: the all-503 scenario instantiating the retry-exhaustion
theorem. -/
theorem fetchWithRetry_retryable_exhaustion_witness :
    fetchWithRetry (fun _ => .resp 503 "Service Unavailable") 1 =
      ⟨.error (.apiError 503 "Service Unavailable"), 4, [1000, 2000, 4000]⟩ :=
  fetchWithRetry_retryable_exhaustion (fun _ => 503) (fun _ => "Service Unavailable")
    (fun _ _ _ => Or.inr (by norm_num))

/-- C3 counterexample: a network-level failure whose error object
carries the generic name `Error` is not retried at all — the very first
attempt rethrows it, with no sleeps — refuting the claim that every
network-level failure gets the full retry budget. -/
theorem network_error_not_retried_cex :
    fetchWithRetry (fun _ => .threw "Error" "socket hang up") 1 =
      ⟨.error (.raised "Error" "socket hang up"), 1, []⟩ := by
  rw [fetchWithRetry]
  simp

/-- C3 (amended): a network-level failure is retried with the same
budget and backoff curve as retryable statuses only when its error name
differs from the literal `"Error"`; in that case the fetch runs 4 times
with sleeps 1000, 2000 and 4000 ms and the underlying error of the last
attempt then propagates.  (An error named exactly `"Error"` propagates
immediately, as the counterexample shows.) -/
theorem fetchWithRetry_network_exhaustion (nm ms : Nat → String)
    (h : ∀ i, 1 ≤ i → i ≤ 3 → nm i ≠ "Error") :
    fetchWithRetry (fun i => .threw (nm i) (ms i)) 1 =
      ⟨.error (.raised (nm 4) (ms 4)), 4, [1000, 2000, 4000]⟩ := by
  have final : fetchWithRetry (fun i => .threw (nm i) (ms i)) 4 =
      ⟨.error (.raised (nm 4) (ms 4)), 1, []⟩ := by
    have hnr : ¬ (4 ≤ MAX_RETRIES ∧ nm 4 ≠ "Error") := by
      simp [MAX_RETRIES]
    rw [fetchWithRetry]
    simp [hnr]
  rw [fetchWithRetry_threw_step nm ms 1 (by norm_num) (h 1 (by norm_num) (by norm_num)),
      fetchWithRetry_threw_step nm ms 2 (by norm_num) (h 2 (by norm_num) (by norm_num)),
      fetchWithRetry_threw_step nm ms 3 (by norm_num) (h 3 (by norm_num) (by norm_num)),
      final]
  simp [backoffDelay, BASE_DELAY_MS]

/-- C3 witness: a `TypeError`-named connection failure on every attempt
instantiating the network-exhaustion theorem. -/
theorem fetchWithRetry_network_exhaustion_witness :
    fetchWithRetry (fun _ => .threw "TypeError" "fetch failed") 1 =
      ⟨.error (.raised "TypeError" "fetch failed"), 4, [1000, 2000, 4000]⟩ :=
  fetchWithRetry_network_exhaustion (fun _ => "TypeError") (fun _ => "fetch failed")
    (fun _ _ _ => show "TypeError" ≠ "Error" by decide)

/-! ## Claim theorems for loading -/

/-- C4: `load` never throws — it is total over every disk content — and
returns the fresh empty state when the file is absent, unreadable or
unparseable, when the parsed value is falsy, when its `programs` field
is missing, and when its `programs` field is not an object: a primitive
is rejected by the `typeof === 'object'` test, and `null` (which passes
that test) makes the `Object.keys` call of the log line throw a
`TypeError` that the surrounding `catch` converts into the empty state.
A value whose `programs` field is a genuine object (or an array, which
is an object in JavaScript and passes both the `typeof` test and
`Object.keys`) is returned unchanged, matching the spec: the top-level
shape alone is validated. -/
theorem load_spec :
    load .absent = emptyDbJson ∧
    load .readError = emptyDbJson ∧
    load .unparsable = emptyDbJson ∧
    (∀ j : Json, jsTruthy j = false → load (.ok j) = emptyDbJson) ∧
    (∀ j : Json, getField j "programs" = none → load (.ok j) = emptyDbJson) ∧
    (∀ j v : Json, getField j "programs" = some v →
      typeofIsObject v = false ∨ v = .jnull → load (.ok j) = emptyDbJson) ∧
    (∀ j v : Json, jsTruthy j = true → getField j "programs" = some v →
      typeofIsObject v = true → v ≠ .jnull → load (.ok j) = j) := by
  refine ⟨rfl, rfl, rfl, ?_, ?_, ?_, ?_⟩
  · intro j h
    simp [load, h]
  · intro j h
    rcases hjt : jsTruthy j with _ | _ <;> simp [load, h, hjt]
  · intro j v h hv
    rcases hjt : jsTruthy j with _ | _
    · simp [load, hjt]
    · rcases hv with hv | rfl
      · simp [load, h, hv, hjt]
      · simp [load, h, hjt, typeofIsObject, jsObjectKeys]
  · intro j v hjt h hv hnn
    cases v with
    | jnull => exact absurd rfl hnn
    | jobj fields => simp [load, h, hjt, typeofIsObject, jsObjectKeys]
    | jarr elems => simp [load, h, hjt, typeofIsObject, jsObjectKeys]
    | jbool b => simp [typeofIsObject] at hv
    | jnum n => simp [typeofIsObject] at hv
    | jstr s => simp [typeofIsObject] at hv

/-- C4 witness: the stored value `{"programs": null}` is replaced by
the empty state — the `null` field passes the `typeof` test but
`Object.keys(null)` throws, and the catch returns the empty database. -/
theorem load_spec_witness :
    load (.ok (.jobj [("programs", .jnull)])) = emptyDbJson :=
  load_spec.2.2.2.2.2.1 (.jobj [("programs", .jnull)]) .jnull rfl (Or.inr rfl)

/-! ## Claim theorem for the orchestrator -/

/-- C9: on a run whose diff is empty the orchestrator calls neither
notify nor the recon side-dispatch, leaves the programs mapping exactly
as loaded, still saves so that `last_run` advances to the current time,
and returns an empty new-programs list. -/
theorem run_empty_diff (state : Db) (current : List Program) (addNow : Nat → String)
    (saveNow : String) (h : diffPrograms state current = []) :
    run state current addNow saveNow =
      ⟨⟨state.programs, some saveNow⟩, [], false, false⟩ := by
  simp [run, h, save]

/-- C9 witness: a run over a state already knowing the whole fetched
batch. -/
theorem run_empty_diff_witness :
    run { programs := [("1", ⟨"h", "N", "s", "o", true, none, "t0"⟩)], last_run := none }
        [⟨.str "1", "h", "N", "s", "o", true, none⟩] (fun _ => "t1") "T" =
      ⟨⟨[("1", ⟨"h", "N", "s", "o", true, none, "t0"⟩)], some "T"⟩, [], false, false⟩ :=
  run_empty_diff
    { programs := [("1", ⟨"h", "N", "s", "o", true, none, "t0"⟩)], last_run := none }
    [⟨.str "1", "h", "N", "s", "o", true, none⟩] (fun _ => "t1") "T" (by decide)

/-! ## Lemmas about chunking -/

theorem length_NN : ("\n\n" : String).length = 2 := rfl

theorem joinNN_length : ∀ l : List String, (joinNN l).length = joinLen l
  | [] => rfl
  | [x] => rfl
  | x :: y :: t => by
    have ih := joinNN_length (y :: t)
    simp only [joinNN, joinLen, String.length_append, length_NN, ih]

theorem joinLen_snoc : ∀ (l : List String) (x : String), l ≠ [] →
    joinLen (l ++ [x]) = joinLen l + 2 + x.length
  | [], _, h => absurd rfl h
  | [y], x, _ => by simp [joinLen]
  | y :: z :: t, x, _ => by
    have ih := joinLen_snoc (z :: t) x (by simp)
    simp only [List.cons_append] at ih ⊢
    simp only [joinLen]
    omega

/-- One split-loop step preserves the loop invariant: the tracked length
is the joined length of the pending entries, finished chunks plus
pending entries never outnumber the consumed entries, every finished
chunk fits within `maxLength`, and the pending chunk with its header
fits — provided the incoming entry fits next to any header whose part
number can still occur. -/
theorem chunkStepInv (hp : String) (total maxLength k : Nat) (st : ChunkAcc) (e : String)
    (hinv : st.currentLength = joinLen st.current ∧
      st.chunks.length + st.current.length ≤ k ∧
      (∀ c ∈ st.chunks, c.length ≤ maxLength) ∧
      (st.current ≠ [] →
        (chunkHeader hp total (st.chunks.length + 1)).length + 2 + st.currentLength ≤ maxLength))
    (hk : k < total)
    (hfit : ∀ p, 1 ≤ p → p ≤ total →
      (chunkHeader hp total p).length + 2 + e.length ≤ maxLength) :
    (chunkStep hp total maxLength st e).currentLength =
        joinLen (chunkStep hp total maxLength st e).current ∧
      (chunkStep hp total maxLength st e).chunks.length +
          (chunkStep hp total maxLength st e).current.length ≤ k + 1 ∧
      (∀ c ∈ (chunkStep hp total maxLength st e).chunks, c.length ≤ maxLength) ∧
      ((chunkStep hp total maxLength st e).current ≠ [] →
        (chunkHeader hp total ((chunkStep hp total maxLength st e).chunks.length + 1)).length +
            2 + (chunkStep hp total maxLength st e).currentLength ≤ maxLength) := by
  obtain ⟨chunks, current, currentLength⟩ := st
  obtain ⟨hlen, hcount, hchunks, hpend⟩ := hinv
  simp only at hlen hcount hchunks hpend
  cases current with
  | nil =>
    have h0 : currentLength = 0 := by simpa [joinLen] using hlen
    have hf := hfit (chunks.length + 1) (by omega)
      (by simp only [List.length_nil] at hcount; omega)
    simp only [chunkStep, List.isEmpty_nil, ite_true, ne_eq, not_true_eq_false, and_false,
      if_false, List.nil_append]
    refine ⟨by simp [joinLen]; omega, ?_, hchunks, fun _ => by omega⟩
    simp only [List.length_cons, List.length_nil] at hcount ⊢
    omega
  | cons a t =>
    have hne : (a :: t : List String) ≠ [] := by simp
    simp only [chunkStep, List.isEmpty_cons, Bool.false_eq_true, if_false, ne_eq,
      reduceCtorEq, not_false_eq_true, and_true]
    by_cases hov : maxLength <
        (chunkHeader hp total (chunks.length + 1)).length + 2 + currentLength + 2 + e.length
    · rw [if_pos hov]
      have hcl : 1 ≤ (a :: t : List String).length := by simp
      have hple : chunks.length + (a :: t : List String).length ≤ k := hcount
      simp only [List.length_cons] at hcl hple
      refine ⟨by simp [joinLen], ?_, ?_, fun _ => ?_⟩
      · simp only [List.length_append, List.length_cons, List.length_nil,
          List.length_singleton]
        omega
      · intro c hc
        rcases List.mem_append.mp hc with hc | hc
        · exact hchunks c hc
        · rcases List.mem_singleton.mp hc with rfl
          have hL : (chunkHeader hp total (chunks.length + 1) ++ "\n\n" ++
              joinNN (a :: t)).length =
              (chunkHeader hp total (chunks.length + 1)).length + 2 + joinLen (a :: t) := by
            simp [String.length_append, length_NN, joinNN_length]
          rw [hL, ← hlen]
          exact hpend hne
      · simp only [List.length_append, List.length_singleton]
        have hf := hfit (chunks.length + 1 + 1) (by omega) (by omega)
        simpa [joinLen] using hf
    · rw [if_neg hov]
      have hsnoc := joinLen_snoc (a :: t) e hne
      refine ⟨?_, ?_, hchunks, fun _ => ?_⟩
      · simp only [List.isEmpty_cons, Bool.false_eq_true, if_false]
        omega
      · simp only [List.length_append, List.length_cons, List.length_nil,
          List.length_singleton] at hcount ⊢
        omega
      · simp only [List.isEmpty_cons, Bool.false_eq_true, if_false]
        omega

theorem chunkFoldInv (hp : String) (total maxLength : Nat) :
    ∀ (es : List String) (k : Nat) (st : ChunkAcc),
      (st.currentLength = joinLen st.current ∧
        st.chunks.length + st.current.length ≤ k ∧
        (∀ c ∈ st.chunks, c.length ≤ maxLength) ∧
        (st.current ≠ [] →
          (chunkHeader hp total (st.chunks.length + 1)).length + 2 + st.currentLength ≤ maxLength)) →
      k + es.length ≤ total →
      (∀ e ∈ es, ∀ p, 1 ≤ p → p ≤ total →
        (chunkHeader hp total p).length + 2 + e.length ≤ maxLength) →
      ((es.foldl (chunkStep hp total maxLength) st).currentLength =
          joinLen (es.foldl (chunkStep hp total maxLength) st).current ∧
        (es.foldl (chunkStep hp total maxLength) st).chunks.length +
            (es.foldl (chunkStep hp total maxLength) st).current.length ≤ k + es.length ∧
        (∀ c ∈ (es.foldl (chunkStep hp total maxLength) st).chunks, c.length ≤ maxLength) ∧
        ((es.foldl (chunkStep hp total maxLength) st).current ≠ [] →
          (chunkHeader hp total
              ((es.foldl (chunkStep hp total maxLength) st).chunks.length + 1)).length + 2 +
            (es.foldl (chunkStep hp total maxLength) st).currentLength ≤ maxLength)) := by
  intro es
  induction es with
  | nil => intro k st hinv _ _; simpa using hinv
  | cons e es ih =>
    intro k st hinv hb hfit
    have hstep := chunkStepInv hp total maxLength k st e hinv
      (by simp only [List.length_cons] at hb; omega)
      (hfit e (List.mem_cons_self e es))
    have := ih (k + 1) (chunkStep hp total maxLength st e) hstep
      (by simp only [List.length_cons] at hb; omega)
      (fun x hx => hfit x (List.mem_cons_of_mem e hx))
    simp only [List.foldl_cons, List.length_cons]
    have hkk : k + 1 + es.length = k + (es.length + 1) := by omega
    rw [← hkk]
    exact this

theorem chunkStep_current_ne (hp : String) (total maxLength : Nat) (st : ChunkAcc)
    (e : String) : (chunkStep hp total maxLength st e).current ≠ [] := by
  simp only [chunkStep]
  split <;> (split <;> simp)

theorem chunkFoldl_current_ne (hp : String) (total maxLength : Nat) :
    ∀ (es : List String) (st : ChunkAcc), (st.current ≠ [] ∨ es ≠ []) →
      (es.foldl (chunkStep hp total maxLength) st).current ≠ [] := by
  intro es
  induction es with
  | nil =>
    intro st h
    rcases h with h | h
    · simpa using h
    · exact absurd rfl h
  | cons e es ih =>
    intro st _
    simp only [List.foldl_cons]
    exact ih _ (Or.inl (chunkStep_current_ne hp total maxLength st e))

theorem chunkMessages_ne_nil (programs : List Program) (fmt : Program → String)
    (hp : String) (maxLength : Nat) (h : programs ≠ []) :
    chunkMessages programs fmt hp maxLength ≠ [] := by
  have hn : programs.length ≠ 0 := by simpa [List.length_eq_zero] using h
  simp only [chunkMessages]
  rw [if_neg hn]
  split
  · simp
  · have hcur := chunkFoldl_current_ne hp programs.length maxLength (programs.map fmt)
      ⟨[], [], 0⟩ (Or.inr (by simpa [List.map_eq_nil_iff] using h))
    unfold chunkFinish
    rw [if_neg hcur]
    simp

/-! ## Claim theorems for chunking -/

/-- C2 counterexample: two rendered entries each strictly shorter than
`maxLength = 20`, yet `chunkMessages` returns a chunk longer than 20
characters, because the per-chunk header is not covered by the
entries-shorter-than-`maxLength` precondition. -/
theorem chunkMessages_maxLength_cex :
    (∀ q ∈ ([⟨.str "1", "a", "A", "s", "o", true, none⟩,
             ⟨.str "2", "b", "B", "s", "o", false, none⟩] : List Program),
      ((fun _ => String.mk (List.replicate 19 'a')) q).length < 20) ∧
    ¬ (∀ c ∈ chunkMessages
          [⟨.str "1", "a", "A", "s", "o", true, none⟩,
           ⟨.str "2", "b", "B", "s", "o", false, none⟩]
          (fun _ => String.mk (List.replicate 19 'a')) "h" 20,
        c.length ≤ 20) := by
  decide

/-- C2 (amended): every string returned by `chunkMessages` has length at
most `maxLength`, provided each rendered entry fits in one chunk next to
its header — that is, for every part number that can occur (1 up to the
number of entities), header length plus separator (2) plus entry length
is at most `maxLength`. -/
theorem chunkMessages_length_bound (programs : List Program) (fmt : Program → String)
    (hp : String) (maxLength : Nat)
    (hfit : ∀ p, 1 ≤ p → p ≤ programs.length → ∀ q ∈ programs,
      (chunkHeader hp programs.length p).length + 2 + (fmt q).length ≤ maxLength) :
    ∀ c ∈ chunkMessages programs fmt hp maxLength, c.length ≤ maxLength := by
  intro c hc
  simp only [chunkMessages] at hc
  by_cases hn : programs.length = 0
  · rw [if_pos hn] at hc; simp at hc
  · rw [if_neg hn] at hc
    by_cases hs : (singleHeader hp programs.length ++ "\n\n" ++
        joinNN (programs.map fmt)).length ≤ maxLength
    · rw [if_pos hs] at hc
      rcases List.mem_singleton.mp hc with rfl
      exact hs
    · rw [if_neg hs] at hc
      have hinv := chunkFoldInv hp programs.length maxLength (programs.map fmt) 0
        ⟨[], [], 0⟩
        ⟨rfl, by simp, by simp, fun hne => absurd rfl hne⟩
        (by simp)
        (by
          intro e he p hp1 hp2
          rcases List.mem_map.mp he with ⟨q, hq, rfl⟩
          exact hfit p hp1 hp2 q hq)
      set stf := (programs.map fmt).foldl
        (chunkStep hp programs.length maxLength) ⟨[], [], 0⟩ with hstf
      obtain ⟨hlen, _, hchunks, hpend⟩ := hinv
      unfold chunkFinish at hc
      by_cases hcur : stf.current = []
      · rw [if_pos hcur] at hc
        exact hchunks c hc
      · rw [if_neg hcur] at hc
        rcases List.mem_append.mp hc with hc | hc
        · exact hchunks c hc
        · rcases List.mem_singleton.mp hc with rfl
          have hL : (chunkHeader hp programs.length (stf.chunks.length + 1) ++ "\n\n" ++
              joinNN stf.current).length =
              (chunkHeader hp programs.length (stf.chunks.length + 1)).length + 2 +
                joinLen stf.current := by
            simp [String.length_append, length_NN, joinNN_length]
          rw [hL, ← hlen]
          exact hpend hcur

/-- C2 witness: with two one-character entries and `maxLength = 100` the
fit hypothesis holds and the single returned message respects the bound. -/
theorem chunkMessages_length_bound_witness :
    (singleHeader "h" 2 ++ "\n\n" ++ joinNN ["x", "x"]).length ≤ 100 :=
  chunkMessages_length_bound
    [⟨.str "1", "a", "A", "s", "o", true, none⟩,
     ⟨.str "2", "b", "B", "s", "o", false, none⟩]
    (fun _ => "x") "h" 100
    (by
      intro p h1 h2 q _
      have h2' : p ≤ 2 := by simpa using h2
      interval_cases p
      · exact (show (chunkHeader "h" 2 1).length + 2 + ("x" : String).length ≤ 100 by decide)
      · exact (show (chunkHeader "h" 2 2).length + 2 + ("x" : String).length ≤ 100 by decide))
    _ (by decide)

/-! ## Lemmas about the notification loop -/

theorem sendLoop_snd (send : FetchOutcome → Bool) (outcomes : Nat → FetchOutcome) :
    ∀ (cs : List String) (i : Nat) (ok : Bool),
      (sendLoop send outcomes cs i ok).2 = (List.range cs.length).map (i + ·) := by
  intro cs
  induction cs with
  | nil => intro i ok; simp [sendLoop]
  | cons c cs ih =>
    intro i ok
    simp only [sendLoop]
    rw [ih (i + 1) (ok && send (outcomes i))]
    simp only [List.length_cons, List.range_succ_eq_map, List.map_cons, List.map_map,
      Nat.add_zero]
    refine congrArg (List.cons i) ?_
    exact List.map_congr_left fun a _ => by simp [Function.comp]; omega

theorem sendLoop_fst (send : FetchOutcome → Bool) (outcomes : Nat → FetchOutcome) :
    ∀ (cs : List String) (i : Nat) (ok : Bool),
      (sendLoop send outcomes cs i ok).1 =
        (ok && ((List.range cs.length).map (i + ·)).all (fun j => send (outcomes j))) := by
  intro cs
  induction cs with
  | nil => intro i ok; simp [sendLoop]
  | cons c cs ih =>
    intro i ok
    simp only [sendLoop]
    rw [ih (i + 1) (ok && send (outcomes i))]
    simp only [List.length_cons, List.range_succ_eq_map, List.map_cons, List.map_map,
      List.all_cons]
    have hmap : (List.range cs.length).map ((i + ·) ∘ Nat.succ) =
        (List.range cs.length).map ((i + 1) + ·) :=
      List.map_congr_left fun a _ => by simp [Function.comp]; omega
    rw [hmap]
    simp [Bool.and_assoc]

/-- C8: for a non-empty new-program list, each channel flag returned by
`notify` is the logical AND of the success of all that channel's chunk
sends; every chunk is attempted (the attempted index lists cover every
chunk in order, with no early abort); and a transport failure — a
thrown error or a non-2xx response (with Discord additionally accepting
204) — is converted into a boolean `false` by the send wrappers rather
than escaping as an exception. -/
theorem notify_channel_and (ps : List Program) (hps : ps ≠ [])
    (tc dc : Bool) (tOut dOut : Nat → FetchOutcome) :
    (notify ps tc tOut dc dOut).1.telegram =
        (List.range (telegramChunks ps).length).all (fun j => sendTelegram tc (tOut j)) ∧
    (notify ps tc tOut dc dOut).1.discord =
        (List.range (discordChunks ps).length).all (fun j => sendDiscord dc (dOut j)) ∧
    (notify ps tc tOut dc dOut).2.1 = List.range (telegramChunks ps).length ∧
    (notify ps tc tOut dc dOut).2.2 = List.range (discordChunks ps).length ∧
    (∀ (c : Bool) (n m : String), sendTelegram c (.threw n m) = false) ∧
    (∀ (c : Bool) (s : Nat) (t : String),
      sendTelegram c (.resp s t) = (c && decide (statusOk s))) ∧
    (∀ (c : Bool) (n m : String), sendDiscord c (.threw n m) = false) ∧
    (∀ (c : Bool) (s : Nat) (t : String),
      sendDiscord c (.resp s t) = (c && (decide (statusOk s) || decide (s = 204)))) := by
  have hpe : ps.isEmpty = false := by
    cases ps with
    | nil => exact absurd rfl hps
    | cons a t => rfl
  have htne : telegramChunks ps ≠ [] :=
    chunkMessages_ne_nil ps formatTelegramEntry "<b>h1-watcher</b>" TELEGRAM_MAX_LENGTH hps
  have hdne : discordChunks ps ≠ [] :=
    chunkMessages_ne_nil ps formatDiscordEntry "**h1-watcher**" DISCORD_MAX_LENGTH hps
  have htne' : (telegramChunks ps).isEmpty = false := by
    cases hcs : telegramChunks ps with
    | nil => exact absurd hcs htne
    | cons a t => rfl
  have hdne' : (discordChunks ps).isEmpty = false := by
    cases hcs : discordChunks ps with
    | nil => exact absurd hcs hdne
    | cons a t => rfl
  have hmap0 : ∀ n : Nat, (List.range n).map (0 + ·) = List.range n := by
    intro n; simp
  refine ⟨?_, ?_, ?_, ?_, ?_, ?_, ?_, ?_⟩
  · simp only [notify, hpe, Bool.false_eq_true, if_false, htne', sendLoop_fst, hmap0,
      Bool.true_and]
  · simp only [notify, hpe, Bool.false_eq_true, if_false, hdne', sendLoop_fst, hmap0,
      Bool.true_and]
  · simp only [notify, hpe, Bool.false_eq_true, if_false, htne', sendLoop_snd, hmap0]
  · simp only [notify, hpe, Bool.false_eq_true, if_false, hdne', sendLoop_snd, hmap0]
  · intro c n m; cases c <;> simp [sendTelegram]
  · intro c s t
    cases c <;> by_cases hs : statusOk s <;> simp [sendTelegram, hs]
  · intro c n m; cases c <;> simp [sendDiscord]
  · intro c s t
    cases c <;> by_cases hs : statusOk s <;> by_cases h4 : s = 204 <;>
      simp [sendDiscord, hs, h4]

/-- C8 witness: a single program with a successful Telegram transport,
instantiating the telegram conjunct of the notify theorem. -/
theorem notify_channel_and_witness :
    (notify [⟨.str "1", "a", "A", "s", "o", true, none⟩] true (fun _ => .resp 200 "")
        true (fun _ => .threw "TypeError" "boom")).1.telegram =
      (List.range (telegramChunks [⟨.str "1", "a", "A", "s", "o", true, none⟩]).length).all
        (fun _ => sendTelegram true (.resp 200 "")) :=
  (notify_channel_and [⟨.str "1", "a", "A", "s", "o", true, none⟩] (by decide)
    true true (fun _ => .resp 200 "") (fun _ => .threw "TypeError" "boom")).1

end H1
